import Mathlib

/-!
Verification development for the eib-mcp repository: a JSON-RPC 2.0 (MCP)
server exposing one tool, `generate_config`, which normalizes plaintext
credentials in a configuration document, validates it against a JSON schema,
and serializes it to YAML.

The Go code manipulates dynamic JSON values (`map[string]interface{}`,
`[]interface{}`, scalars).  We embed those as the inductive type `JValue`;
Go maps become association lists with first-match lookup, in-place update
and delete.  External capabilities (bcrypt hashing, the gojsonschema
validation engine, the YAML marshaller, the embedded schema document) are
parameters collected in the `Capabilities` structure; everything else is a
direct translation of the Go source.
-/

/-- Dynamic JSON value, embedding Go's `interface{}` trees
(`nil`, `bool`, `float64`, `string`, `[]interface{}`, `map[string]interface{}`). -/
inductive JValue where
  | null
  | bool (b : Bool)
  | num (n : Int)
  | str (s : String)
  | arr (xs : List JValue)
  | obj (fields : List (String × JValue))

/-- A Go `map[string]interface{}`, embedded as an association list. -/
abbrev Doc := List (String × JValue)

/-- Map lookup: `m[k]` with the comma-ok idiom (`none` = key absent). -/
def getKey : Doc → String → Option JValue
  | [], _ => none
  | (k', v') :: rest, k => if k' = k then some v' else getKey rest k

/-- Map update `m[k] = v`: overwrite the existing entry in place, or append. -/
def setKey : Doc → String → JValue → Doc
  | [], k, v => [(k, v)]
  | (k', v') :: rest, k, v =>
    if k' = k then (k', v) :: rest else (k', v') :: setKey rest k v

/-- Map deletion `delete(m, k)`. -/
def delKey : Doc → String → Doc
  | [], _ => []
  | (k', v') :: rest, k =>
    if k' = k then delKey rest k else (k', v') :: delKey rest k

/-- Go's `strings.HasPrefix s pre`, stated on the character lists so that it is
structurally recursive (for a valid UTF-8 string a character-level prefix is
exactly a byte-level prefix). -/
def strStartsWith (s pre : String) : Bool :=
  pre.data.isPrefixOf s.data

/-- `true` iff the value is a `map[string]interface{}` (the Go type assertion
`v.(map[string]interface{})` succeeds). -/
def isObj : JValue → Bool
  | .obj _ => true
  | _ => false

/-- `true` iff the value is a `[]interface{}`. -/
def isArr : JValue → Bool
  | .arr _ => true
  | _ => false

/-- The `else if` branch of the user loop in `processPasswords`
(src/unnamed/part_004 lines 84-93): if `encryptedPassword` is a non-empty
string that does not start with `$`, hash it in place; otherwise leave the
record untouched.  `encryptPassword` is the external bcrypt capability
(`golang.org/x/crypto/bcrypt`), passed as a parameter. -/
def processEnc (encryptPassword : String → Except String String) (userMap : Doc) :
    Except String JValue :=
  match getKey userMap "encryptedPassword" with
  | some (.str encPwd) =>
    if encPwd ≠ "" then
      if !strStartsWith encPwd "$" then
        match encryptPassword encPwd with
        | .error e => .error ("encryption failed: " ++ e)
        | .ok hash => .ok (.obj (setKey userMap "encryptedPassword" (.str hash)))
      else .ok (.obj userMap)
    else .ok (.obj userMap)
  | _ => .ok (.obj userMap)

/-- One iteration of the user loop of `processPasswords`
(src/unnamed/part_004 lines 71-94): a non-map element is skipped; a map with a
non-empty string `password` gets it hashed into `encryptedPassword` and the
plaintext key deleted; otherwise the `encryptedPassword` branch runs. -/
def processUser (encryptPassword : String → Except String String) :
    JValue → Except String JValue
  | .obj userMap =>
    match getKey userMap "password" with
    | some (.str pwd) =>
      if pwd ≠ "" then
        match encryptPassword pwd with
        | .error e => .error ("encryption failed: " ++ e)
        | .ok hash =>
          .ok (.obj (delKey (setKey userMap "encryptedPassword" (.str hash)) "password"))
      else processEnc encryptPassword userMap
    | _ => processEnc encryptPassword userMap
  | v => .ok v

/-- The user loop of `processPasswords`: processes the list elements in order,
aborting at the first hashing failure. -/
def processUsers (encryptPassword : String → Except String String) :
    List JValue → Except String (List JValue)
  | [] => .ok []
  | u :: rest =>
    match processUser encryptPassword u with
    | .error e => .error e
    | .ok u' =>
      match processUsers encryptPassword rest with
      | .error e => .error e
      | .ok rest' => .ok (u' :: rest')

/-- `processPasswords` (src/unnamed/part_004 lines 52-96): navigate
`input["operatingSystem"]["users"]`; if any step of the navigation fails
(key absent or wrong dynamic type) return the document unchanged, otherwise
process every user record.  The Go function mutates in place; here the
updated document is returned. -/
def processPasswords (encryptPassword : String → Except String String)
    (input : Doc) : Except String Doc :=
  match getKey input "operatingSystem" with
  | some (.obj osMap) =>
    match getKey osMap "users" with
    | some (.arr usersSlice) =>
      match processUsers encryptPassword usersSlice with
      | .error e => .error e
      | .ok users' =>
        .ok (setKey input "operatingSystem" (.obj (setKey osMap "users" (.arr users'))))
    | _ => .ok input
  | _ => .ok input

/-- External capabilities consumed by the pipeline and the server, out of
scope per the specification: the bcrypt hasher, the compiled-schema loader,
the gojsonschema validation engine (returning the list of violation
descriptions; `Valid()` is "the list is empty"; `.error` is an internal
engine failure), the YAML marshaller, and the result of `json.Unmarshal` on
the embedded raw schema (`none` = parse failure). -/
structure Capabilities where
  encryptPassword : String → Except String String
  loadSchema : Except String Unit
  validate : Doc → Except String (List String)
  yamlMarshal : Doc → Except String String
  rawSchemaParsed : Option Doc

/-- The violation-message accumulation loop of `GenerateConfig`
(src/unnamed/part_004 lines 36-39): `errMsgs += fmt.Sprintf("- %s\n", desc)`. -/
def violationLines (violations : List String) : String :=
  violations.foldl (fun errMsgs desc => errMsgs ++ ("- " ++ desc ++ "\n")) ""

/-- `GenerateConfig` (src/unnamed/part_004 lines 14-50): process passwords,
load the schema, validate, and marshal to YAML, short-circuiting on the first
failure with the source's wrapped error messages. -/
def GenerateConfig (C : Capabilities) (input : Doc) : Except String String :=
  match processPasswords C.encryptPassword input with
  | .error e => .error ("failed to encrypt passwords: " ++ e)
  | .ok input' =>
    match C.loadSchema with
    | .error e => .error ("failed to load schema: " ++ e)
    | .ok _ =>
      match C.validate input' with
      | .error e => .error ("validation failed: " ++ e)
      | .ok violations =>
        if !violations.isEmpty then
          .error ("configuration is invalid:\n" ++ violationLines violations)
        else
          match C.yamlMarshal input' with
          | .error e => .error ("failed to marshal to YAML: " ++ e)
          | .ok yamlBytes => .ok yamlBytes

/-- `JSONRPCRequest` (src/mcp/server.go lines 15-20).  `params` is the raw
`json.RawMessage` sub-payload (`none` = field absent, so the raw bytes are
`nil`); `id` is the `interface{}` identifier (`none` = JSON `null` or absent,
i.e. the Go value is `nil`). -/
structure JSONRPCRequest where
  jsonrpc : String
  method : String
  params : Option JValue
  id : Option JValue

/-- `JSONRPCError` (src/mcp/server.go lines 31-35). -/
structure JSONRPCError where
  code : Int
  message : String
  data : Option JValue

/-- `JSONRPCResponse` (src/mcp/server.go lines 23-28). -/
structure JSONRPCResponse where
  jsonrpc : String
  result : Option JValue
  error : Option JSONRPCError
  id : Option JValue

/-- The `tools/call` parameter struct of `handleToolsCall`
(src/mcp/server.go lines 183-186): `{name: string, arguments: object}`.
Absent or `null` fields keep their Go zero values (`""` and the `nil` map,
embedded as `[]`). -/
structure CallParams where
  name : String
  arguments : Doc

/-- `json.Unmarshal` of the `name` field into a `string`: absent or `null`
leaves the zero value `""`; a JSON string is taken verbatim; any other shape
is a type error. -/
def parseNameField : Option JValue → Option String
  | none => some ""
  | some .null => some ""
  | some (.str s) => some s
  | some _ => none

/-- `json.Unmarshal` of the `arguments` field into `map[string]interface{}`:
absent or `null` leaves the `nil` map; a JSON object is taken verbatim; any
other shape is a type error. -/
def parseArgsField : Option JValue → Option Doc
  | none => some []
  | some .null => some []
  | some (.obj a) => some a
  | some _ => none

/-- `json.Unmarshal(req.Params, &params)` in `handleToolsCall`
(src/mcp/server.go line 187).  A `nil` raw message (absent `params`) is not
valid JSON, so unmarshalling fails; JSON `null` succeeds leaving the zero
values; a JSON object decodes the two fields; any other payload shape fails. -/
def parseCallParams : Option JValue → Option CallParams
  | none => none
  | some .null => some ⟨"", []⟩
  | some (.obj m) =>
    match parseNameField (getKey m "name"), parseArgsField (getKey m "arguments") with
    | some n, some a => some ⟨n, a⟩
    | _, _ => none
  | some _ => none

/-- `handleInitialize` (src/mcp/server.go lines 102-117). -/
def handleInitialize (req : JSONRPCRequest) : JSONRPCResponse :=
  ⟨"2.0",
    some (.obj [
      ("protocolVersion", .str "2024-11-05"),
      ("capabilities", .obj [("tools", .obj [])]),
      ("serverInfo", .obj [("name", .str "eib-mcp"), ("version", .str "0.1.0")])]),
    none,
    req.id⟩

/-- The tool description string of `handleToolsList`
(src/mcp/server.go lines 135-174). -/
def toolDescription : String :=
  "Generates a valid edge-image-builder YAML configuration file.\n" ++
  "IMPORTANT GUIDELINES:\n" ++
  "1. \"kubernetes.helm.charts.repositoryName\" MUST match a \"name\" in \"kubernetes.helm.repositories\".\n" ++
  "2. \"kubernetes.nodes\" MUST NOT contain IP addresses (only hostname, type, initializer).\n" ++
  "3. \"operatingSystem.time\" MUST use \"timezone\" (lowercase), NOT \"timeZone\".\n" ++
  "4. Passwords: You can put plaintext in \"encryptedPassword\" or \"password\". The tool will automatically encrypt it.\n" ++
  "\n" ++
  "Example Structure:\n" ++
  "apiVersion: \"1.0\"\n" ++
  "image:\n" ++
  "  imageType: \"iso\"\n" ++
  "  arch: \"x86_64\"\n" ++
  "  baseImage: \"sles15.iso\"\n" ++
  "  outputImageName: \"output\"\n" ++
  "operatingSystem:\n" ++
  "  users:\n" ++
  "    - username: \"root\"\n" ++
  "      encryptedPassword: \"...\"\n" ++
  "  isoConfiguration:\n" ++
  "    installDevice: \"/dev/sda\"\n" ++
  "  time:\n" ++
  "    timezone: \"UTC\"\n" ++
  "    ntp:\n" ++
  "      servers:\n" ++
  "        - \"pool.ntp.org\"\n" ++
  "kubernetes:\n" ++
  "  version: \"1.29.0\"\n" ++
  "  network:\n" ++
  "    apiVIP: \"1.2.3.4\"\n" ++
  "  nodes:\n" ++
  "    - hostname: \"node1\"\n" ++
  "      type: \"server\"\n" ++
  "  helm:\n" ++
  "    charts:\n" ++
  "      - name: \"chart\"\n" ++
  "        repositoryName: \"repo\"\n" ++
  "        version: \"1.0.0\"\n" ++
  "    repositories:\n" ++
  "      - name: \"repo\"\n" ++
  "        url: \"https://charts.example.com\""

/-- `handleToolsList` (src/mcp/server.go lines 119-180): embed the parsed raw
schema in the tool descriptor, substituting a placeholder map if the embedded
schema does not parse. -/
def handleToolsList (C : Capabilities) (req : JSONRPCRequest) : JSONRPCResponse :=
  let schemaMap : JValue :=
    match C.rawSchemaParsed with
    | some m => .obj m
    | none => .obj [("type", .str "object"), ("error", .str "failed to parse schema")]
  ⟨"2.0",
    some (.obj [
      ("tools", .arr [
        .obj [
          ("name", .str "generate_config"),
          ("description", .str toolDescription),
          ("inputSchema", schemaMap)]])]),
    none,
    req.id⟩

/-- `handleToolsCall` (src/mcp/server.go lines 182-224). -/
def handleToolsCall (C : Capabilities) (req : JSONRPCRequest) : JSONRPCResponse :=
  match parseCallParams req.params with
  | none => ⟨"2.0", none, some ⟨-32700, "Parse error", none⟩, req.id⟩
  | some params =>
    if params.name ≠ "generate_config" then
      ⟨"2.0", none, some ⟨-32601, "Tool not found", none⟩, req.id⟩
    else
      match GenerateConfig C params.arguments with
      | .error e => ⟨"2.0", none, some ⟨-32000, e, none⟩, req.id⟩
      | .ok yamlOutput =>
        ⟨"2.0",
          some (.obj [("content", .arr [
            .obj [("type", .str "text"), ("text", .str yamlOutput)]])]),
          none,
          req.id⟩

/-- `handleRequest` (src/mcp/server.go lines 78-100): dispatch on the method
name; for an unrecognized method answer `-32601` when an identifier is
present and nothing (`none`) otherwise. -/
def handleRequest (C : Capabilities) (req : JSONRPCRequest) : Option JSONRPCResponse :=
  match req.method with
  | "initialize" => some (handleInitialize req)
  | "tools/list" => some (handleToolsList C req)
  | "tools/call" => some (handleToolsCall C req)
  | _ =>
    if req.id.isSome then
      some ⟨"2.0", none, some ⟨-32601, "Method not found", none⟩, req.id⟩
    else
      none

/-- One line of the input stream as the `Serve` loop sees it: empty
(`len(line) == 0`), failing `json.Unmarshal` into `JSONRPCRequest`, or a
successfully parsed request.  The JSON text parser itself is external. -/
inductive InputLine where
  | empty
  | malformed
  | parsed (req : JSONRPCRequest)

/-- The body of the `Serve` scanner loop (src/mcp/server.go lines 51-74),
over the list of lines delivered by the scanner: empty lines and lines that
fail to parse are skipped, handled requests with no response produce no
output, a response that fails to marshal (capability `marshal`, i.e.
`json.Marshal`) is logged and dropped, and a marshalled response is written
as one line. -/
def serveLines (C : Capabilities) (marshal : JSONRPCResponse → Option String) :
    List InputLine → List String
  | [] => []
  | line :: rest =>
    match line with
    | .empty => serveLines C marshal rest
    | .malformed => serveLines C marshal rest
    | .parsed req =>
      match handleRequest C req with
      | none => serveLines C marshal rest
      | some resp =>
        match marshal resp with
        | none => serveLines C marshal rest
        | some bytes => (bytes ++ "\n") :: serveLines C marshal rest

/-- How the input stream ends: end of file, or a scanner read error. -/
inductive StreamEnd where
  | eof
  | readError (msg : String)

/-- `Serve` (src/mcp/server.go lines 49-76): process every line the scanner
delivers, then return `scanner.Err()` (`none` at end of file, the read error
otherwise) together with the output lines written. -/
def Serve (C : Capabilities) (marshal : JSONRPCResponse → Option String)
    (lines : List InputLine) (ending : StreamEnd) : List String × Option String :=
  (serveLines C marshal lines,
   match ending with
   | .eof => none
   | .readError msg => some msg)

theorem getKey_setKey_self (m : Doc) (k : String) (v : JValue) :
    getKey (setKey m k v) k = some v := by
  induction m with
  | nil => simp [setKey, getKey]
  | cons p rest ih =>
    obtain ⟨k', v'⟩ := p
    by_cases h : k' = k
    · simp [setKey, getKey, h]
    · simp [setKey, getKey, h, ih]

theorem getKey_setKey_ne (m : Doc) (k k' : String) (v : JValue) (h : k' ≠ k) :
    getKey (setKey m k v) k' = getKey m k' := by
  induction m with
  | nil => simp [setKey, getKey, Ne.symm h]
  | cons p rest ih =>
    obtain ⟨k₀, v₀⟩ := p
    by_cases hk : k₀ = k
    · subst hk
      simp [setKey, getKey, Ne.symm h]
    · simp [setKey, getKey, hk, ih]

theorem getKey_delKey_self (m : Doc) (k : String) :
    getKey (delKey m k) k = none := by
  induction m with
  | nil => simp [delKey, getKey]
  | cons p rest ih =>
    obtain ⟨k₀, v₀⟩ := p
    by_cases hk : k₀ = k
    · simp [delKey, hk, ih]
    · simp [delKey, getKey, hk, ih]

theorem getKey_delKey_ne (m : Doc) (k k' : String) (h : k' ≠ k) :
    getKey (delKey m k) k' = getKey m k' := by
  induction m with
  | nil => simp [delKey]
  | cons p rest ih =>
    obtain ⟨k₀, v₀⟩ := p
    by_cases hk : k₀ = k
    · subst hk
      simp [delKey, getKey, Ne.symm h, ih]
    · simp [delKey, getKey, hk, ih]

theorem setKey_eq_self_of_getKey (m : Doc) (k : String) (v : JValue)
    (h : getKey m k = some v) : setKey m k v = m := by
  induction m with
  | nil => simp [getKey] at h
  | cons p rest ih =>
    obtain ⟨k₀, v₀⟩ := p
    by_cases hk : k₀ = k
    · simp [getKey, hk] at h
      simp [setKey, hk, h]
    · simp [getKey, hk] at h
      simp [setKey, hk, ih h]

theorem processUsers_getElem? (f : String → Except String String)
    (us us' : List JValue) (i : Nat) (u : JValue)
    (h : processUsers f us = .ok us') (hi : us[i]? = some u) :
    ∃ u', us'[i]? = some u' ∧ processUser f u = .ok u' := by
  induction us generalizing us' i with
  | nil => simp at hi
  | cons a rest ih =>
    cases hu : processUser f a with
    | error e => simp [processUsers, hu] at h
    | ok a' =>
      cases hr : processUsers f rest with
      | error e => simp [processUsers, hu, hr] at h
      | ok rest' =>
        simp [processUsers, hu, hr] at h
        subst h
        cases i with
        | zero =>
          simp at hi
          subst hi
          exact ⟨a', by simp, hu⟩
        | succ n =>
          simp at hi
          obtain ⟨u', h1, h2⟩ := ih rest' n hr hi
          exact ⟨u', by simpa using h1, h2⟩

theorem processPasswords_eq_of_nav (f : String → Except String String)
    (input osm : Doc) (users users' : List JValue)
    (hOS : getKey input "operatingSystem" = some (.obj osm))
    (hU : getKey osm "users" = some (.arr users))
    (hPU : processUsers f users = .ok users') :
    processPasswords f input =
      .ok (setKey input "operatingSystem" (.obj (setKey osm "users" (.arr users')))) := by
  simp [processPasswords, hOS, hU, hPU]

theorem processPasswords_eq_self_of_no_os (f : String → Except String String)
    (input : Doc)
    (h : ∀ v, getKey input "operatingSystem" = some v → isObj v = false) :
    processPasswords f input = .ok input := by
  cases hOS : getKey input "operatingSystem" with
  | none => simp [processPasswords, hOS]
  | some v =>
    cases v with
    | null => simp [processPasswords, hOS]
    | bool b => simp [processPasswords, hOS]
    | num n => simp [processPasswords, hOS]
    | str s => simp [processPasswords, hOS]
    | arr xs => simp [processPasswords, hOS]
    | obj m => simp [isObj] at h; exact absurd (h _ hOS) (by simp)

theorem processPasswords_eq_self_of_no_users (f : String → Except String String)
    (input osm : Doc)
    (hOS : getKey input "operatingSystem" = some (.obj osm))
    (h : ∀ v, getKey osm "users" = some v → isArr v = false) :
    processPasswords f input = .ok input := by
  cases hU : getKey osm "users" with
  | none => simp [processPasswords, hOS, hU]
  | some v =>
    cases v with
    | null => simp [processPasswords, hOS, hU]
    | bool b => simp [processPasswords, hOS, hU]
    | num n => simp [processPasswords, hOS, hU]
    | str s => simp [processPasswords, hOS, hU]
    | obj m => simp [processPasswords, hOS, hU]
    | arr xs => simp [isArr] at h; exact absurd (h _ hU) (by simp)

/-- A user record on which `processPasswords` does nothing: no `password` key,
and any non-empty string `encryptedPassword` already carries the `$` marker
(the characterization in claim C2's hypothesis). -/
def userNormalized : JValue → Bool
  | .obj m =>
    (getKey m "password").isNone &&
    (match getKey m "encryptedPassword" with
     | some (.str e) => e == "" || strStartsWith e "$"
     | _ => true)
  | _ => true

/-- A document every user record of which is normalized (trivially true when
the `operatingSystem.users` path is absent or ill-shaped). -/
def docNormalized (input : Doc) : Bool :=
  match getKey input "operatingSystem" with
  | some (.obj osm) =>
    match getKey osm "users" with
    | some (.arr users) => users.all userNormalized
    | _ => true
  | _ => true

theorem processEnc_eq_self (f : String → Except String String) (m : Doc)
    (h : ∀ e, getKey m "encryptedPassword" = some (.str e) →
      e = "" ∨ strStartsWith e "$" = true) :
    processEnc f m = .ok (.obj m) := by
  cases henc : getKey m "encryptedPassword" with
  | none => simp [processEnc, henc]
  | some v =>
    cases v with
    | null => simp [processEnc, henc]
    | bool b => simp [processEnc, henc]
    | num n => simp [processEnc, henc]
    | arr xs => simp [processEnc, henc]
    | obj m' => simp [processEnc, henc]
    | str e =>
      rcases h e henc with he | he
      · simp [processEnc, henc, he]
      · simp [processEnc, henc, he]

theorem processUser_eq_of_normalized (f : String → Except String String)
    (u : JValue) (h : userNormalized u = true) :
    processUser f u = .ok u := by
  cases u with
  | null => rfl
  | bool b => rfl
  | num n => rfl
  | str s => rfl
  | arr xs => rfl
  | obj m =>
    simp [userNormalized] at h
    obtain ⟨h1, h2⟩ := h
    have h2' : ∀ e, getKey m "encryptedPassword" = some (.str e) →
        e = "" ∨ strStartsWith e "$" = true := by
      intro e he
      rw [he] at h2
      simpa using h2
    simp [processUser, h1, processEnc_eq_self f m h2']

theorem processUsers_eq_of_all_normalized (f : String → Except String String)
    (us : List JValue) (h : us.all userNormalized = true) :
    processUsers f us = .ok us := by
  induction us with
  | nil => rfl
  | cons u rest ih =>
    simp [List.all_cons] at h
    simp [processUsers, processUser_eq_of_normalized f u h.1,
      ih (List.all_eq_true.mpr h.2)]

theorem docNormalized_all (input osm : Doc) (users : List JValue)
    (hOS : getKey input "operatingSystem" = some (.obj osm))
    (hU : getKey osm "users" = some (.arr users))
    (h : docNormalized input = true) :
    users.all userNormalized = true := by
  unfold docNormalized at h
  rw [hOS] at h
  simp only [] at h
  rw [hU] at h
  simp only [] at h
  exact h

/-- C2: credential normalization is idempotent.  On a document on which
`processPasswords` has already run successfully — so no user record has a
`password` key and every non-empty string `encryptedPassword` value starts
with `$` (the predicate `docNormalized`) — a second run of `processPasswords`
succeeds and returns the document unchanged: no field is re-hashed, added or
removed. -/
theorem processPasswords_idempotent (f : String → Except String String)
    (input : Doc) (h : docNormalized input = true) :
    processPasswords f input = .ok input := by
  cases hOS : getKey input "operatingSystem" with
  | none => simp [processPasswords, hOS]
  | some v =>
    cases v with
    | null => simp [processPasswords, hOS]
    | bool b => simp [processPasswords, hOS]
    | num n => simp [processPasswords, hOS]
    | str s => simp [processPasswords, hOS]
    | arr xs => simp [processPasswords, hOS]
    | obj osm =>
      cases hU : getKey osm "users" with
      | none => simp [processPasswords, hOS, hU]
      | some w =>
        cases w with
        | null => simp [processPasswords, hOS, hU]
        | bool b => simp [processPasswords, hOS, hU]
        | num n => simp [processPasswords, hOS, hU]
        | str s => simp [processPasswords, hOS, hU]
        | obj m => simp [processPasswords, hOS, hU]
        | arr users =>
          have hall := docNormalized_all input osm users hOS hU h
          have hPU := processUsers_eq_of_all_normalized f users hall
          rw [processPasswords_eq_of_nav f input osm users users hOS hU hPU,
            setKey_eq_self_of_getKey osm "users" (.arr users) hU,
            setKey_eq_self_of_getKey input "operatingSystem" (.obj osm) hOS]

/-- C2 witness: a concrete already-normalized document is returned unchanged. -/
theorem processPasswords_idempotent_witness :
    processPasswords (fun s => .ok ("$2a$10$" ++ s))
      [("operatingSystem", .obj [("users", .arr
        [.obj [("username", .str "root"),
               ("encryptedPassword", .str "$2a$10$abcdef")]])])] =
    .ok [("operatingSystem", .obj [("users", .arr
        [.obj [("username", .str "root"),
               ("encryptedPassword", .str "$2a$10$abcdef")]])])] :=
  processPasswords_idempotent (fun s => .ok ("$2a$10$" ++ s)) _ (by decide)

/-- C8: `processPasswords` is total and tolerant of arbitrarily shaped
documents: if `operatingSystem` is absent or not a mapping, or `users` is
absent or not a list, it succeeds with the document unchanged, and a user-list
element that is not a mapping is passed through unchanged without error. -/
theorem processPasswords_tolerant_navigation (f : String → Except String String)
    (input : Doc) :
    ((∀ v, getKey input "operatingSystem" = some v → isObj v = false) →
      processPasswords f input = .ok input) ∧
    (∀ osm, getKey input "operatingSystem" = some (.obj osm) →
      (∀ v, getKey osm "users" = some v → isArr v = false) →
      processPasswords f input = .ok input) ∧
    (∀ v, isObj v = false → processUser f v = .ok v) := by
  refine ⟨processPasswords_eq_self_of_no_os f input, ?_, ?_⟩
  · intro osm hOS h
    exact processPasswords_eq_self_of_no_users f input osm hOS h
  · intro v hv
    cases v with
    | null => rfl
    | bool b => rfl
    | num n => rfl
    | str s => rfl
    | arr xs => rfl
    | obj m => simp [isObj] at hv

/-- C8 witness: a document whose `operatingSystem` is a string, one whose
`users` is a number, and a non-mapping list element, all pass through
unchanged. -/
theorem processPasswords_tolerant_navigation_witness :
    (processPasswords (fun s => .ok s) [("operatingSystem", .str "oops")] =
      .ok [("operatingSystem", .str "oops")]) ∧
    (processPasswords (fun s => .ok s)
        [("operatingSystem", .obj [("users", .num 3)])] =
      .ok [("operatingSystem", .obj [("users", .num 3)])]) ∧
    (processUser (fun s => .ok s) (.str "not a map") = .ok (.str "not a map")) := by
  refine ⟨?_, ?_, ?_⟩
  · exact (processPasswords_tolerant_navigation (fun s => .ok s)
      [("operatingSystem", .str "oops")]).1
      (by intro v hv; simp [getKey] at hv; rw [← hv]; rfl)
  · exact (processPasswords_tolerant_navigation (fun s => .ok s)
      [("operatingSystem", .obj [("users", .num 3)])]).2.1
      [("users", .num 3)] (by simp [getKey])
      (by intro v hv; simp [getKey] at hv; rw [← hv]; rfl)
  · exact (processPasswords_tolerant_navigation (fun s => .ok s) []).2.2
      (.str "not a map") rfl

/-- C1: for every configuration document whose `operatingSystem.users` list
contains (at index `i`) a user record with a non-empty string `password`
field, after `processPasswords` succeeds that record has no `password` field
and has an `encryptedPassword` field whose string value begins with the
hash-scheme marker `$` (the bcrypt capability only produces `$`-marked
tokens, hypothesis `hf`). -/
theorem processPasswords_plaintext_hashed
    (f : String → Except String String)
    (hf : ∀ s h, f s = .ok h → strStartsWith h "$" = true)
    (input osm : Doc) (users : List JValue) (i : Nat) (m : Doc) (pwd : String)
    (out : Doc)
    (hOS : getKey input "operatingSystem" = some (.obj osm))
    (hU : getKey osm "users" = some (.arr users))
    (hi : users[i]? = some (.obj m))
    (hpwd : getKey m "password" = some (.str pwd))
    (hne : pwd ≠ "")
    (hrun : processPasswords f input = .ok out) :
    ∃ osm' : Doc, ∃ users' : List JValue, ∃ m' : Doc,
      getKey out "operatingSystem" = some (.obj osm') ∧
      getKey osm' "users" = some (.arr users') ∧
      users'[i]? = some (.obj m') ∧
      getKey m' "password" = none ∧
      ∃ hsh, getKey m' "encryptedPassword" = some (.str hsh) ∧
        strStartsWith hsh "$" = true := by
  cases hPU : processUsers f users with
  | error e => simp [processPasswords, hOS, hU, hPU] at hrun
  | ok users' =>
    rw [processPasswords_eq_of_nav f input osm users users' hOS hU hPU] at hrun
    injection hrun with hout
    subst hout
    obtain ⟨u', hu', hpu⟩ := processUsers_getElem? f users users' i (.obj m) hPU hi
    cases hfp : f pwd with
    | error e => simp [processUser, hpwd, hne, hfp] at hpu
    | ok hsh =>
      simp [processUser, hpwd, hne, hfp] at hpu
      subst hpu
      refine ⟨setKey osm "users" (.arr users'), users',
        delKey (setKey m "encryptedPassword" (.str hsh)) "password",
        getKey_setKey_self input "operatingSystem" _,
        getKey_setKey_self osm "users" _,
        hu', getKey_delKey_self _ "password",
        hsh, ?_, hf pwd hsh hfp⟩
      rw [getKey_delKey_ne _ "password" "encryptedPassword" (by decide),
        getKey_setKey_self]

/-- C1 witness: a concrete document with plaintext password `secret` and a
constant-output bcrypt model. -/
theorem processPasswords_plaintext_hashed_witness :
    ∃ osm' : Doc, ∃ users' : List JValue, ∃ m' : Doc,
      getKey [("operatingSystem", JValue.obj [("users", JValue.arr
          [JValue.obj [("username", JValue.str "root"),
                       ("encryptedPassword", JValue.str "$2a$10$h")]])])]
        "operatingSystem" = some (.obj osm') ∧
      getKey osm' "users" = some (.arr users') ∧
      users'[0]? = some (.obj m') ∧
      getKey m' "password" = none ∧
      ∃ hsh, getKey m' "encryptedPassword" = some (.str hsh) ∧
        strStartsWith hsh "$" = true :=
  processPasswords_plaintext_hashed
    (fun _ => .ok "$2a$10$h")
    (by intro s h e; injection e with e; subst e; decide)
    [("operatingSystem", .obj [("users", .arr
      [.obj [("username", .str "root"), ("password", .str "secret")]])])]
    [("users", .arr [.obj [("username", .str "root"), ("password", .str "secret")]])]
    [.obj [("username", .str "root"), ("password", .str "secret")]]
    0
    [("username", .str "root"), ("password", .str "secret")]
    "secret"
    [("operatingSystem", .obj [("users", .arr
      [.obj [("username", .str "root"), ("encryptedPassword", .str "$2a$10$h")]])])]
    rfl rfl rfl rfl (by decide) rfl

/-- C6: for a user record (at index `i`) with no `password` field but a
non-empty string `encryptedPassword`: if the value does not start with `$`,
`processPasswords` replaces it in place with its hash; if it already starts
with `$`, the record is left unchanged. -/
theorem processPasswords_encrypted_field_cases
    (f : String → Except String String)
    (input osm : Doc) (users : List JValue) (i : Nat) (m : Doc) (e : String)
    (out : Doc)
    (hOS : getKey input "operatingSystem" = some (.obj osm))
    (hU : getKey osm "users" = some (.arr users))
    (hi : users[i]? = some (.obj m))
    (hpwd : getKey m "password" = none)
    (henc : getKey m "encryptedPassword" = some (.str e))
    (hne : e ≠ "")
    (hrun : processPasswords f input = .ok out) :
    ∃ osm' : Doc, ∃ users' : List JValue,
      getKey out "operatingSystem" = some (.obj osm') ∧
      getKey osm' "users" = some (.arr users') ∧
      (strStartsWith e "$" = false →
        ∃ hsh, f e = .ok hsh ∧
          users'[i]? = some (.obj (setKey m "encryptedPassword" (.str hsh)))) ∧
      (strStartsWith e "$" = true → users'[i]? = some (.obj m)) := by
  cases hPU : processUsers f users with
  | error err => simp [processPasswords, hOS, hU, hPU] at hrun
  | ok users' =>
    rw [processPasswords_eq_of_nav f input osm users users' hOS hU hPU] at hrun
    injection hrun with hout
    subst hout
    obtain ⟨u', hu', hpu⟩ := processUsers_getElem? f users users' i (.obj m) hPU hi
    refine ⟨setKey osm "users" (.arr users'), users',
      getKey_setKey_self input "operatingSystem" _,
      getKey_setKey_self osm "users" _, ?_, ?_⟩
    · intro hdollar
      cases hfe : f e with
      | error err =>
        simp [processUser, processEnc, hpwd, henc, hne, hdollar, hfe] at hpu
      | ok hsh =>
        simp [processUser, processEnc, hpwd, henc, hne, hdollar, hfe] at hpu
        subst hpu
        exact ⟨hsh, rfl, hu'⟩
    · intro hdollar
      simp [processUser, processEnc, hpwd, henc, hne, hdollar] at hpu
      subst hpu
      exact hu'

/-- C6 witness: a record whose `encryptedPassword` is plaintext (`abc`) gets
it hashed in place, and one already marked (`$2a$10$z`) is untouched. -/
theorem processPasswords_encrypted_field_cases_witness :
    (∃ osm' : Doc, ∃ users' : List JValue,
      getKey [("operatingSystem", JValue.obj [("users", JValue.arr
          [JValue.obj [("encryptedPassword", JValue.str "$2a$10$abc")]])])]
        "operatingSystem" = some (.obj osm') ∧
      getKey osm' "users" = some (.arr users') ∧
      (strStartsWith "abc" "$" = false →
        ∃ hsh, (fun s => Except.ok ("$2a$10$" ++ s) : String → Except String String) "abc" = .ok hsh ∧
          users'[0]? = some (.obj (setKey [("encryptedPassword", JValue.str "abc")]
            "encryptedPassword" (.str hsh)))) ∧
      (strStartsWith "abc" "$" = true →
        users'[0]? = some (.obj [("encryptedPassword", JValue.str "abc")]))) ∧
    (∃ osm' : Doc, ∃ users' : List JValue,
      getKey [("operatingSystem", JValue.obj [("users", JValue.arr
          [JValue.obj [("encryptedPassword", JValue.str "$2a$10$z")]])])]
        "operatingSystem" = some (.obj osm') ∧
      getKey osm' "users" = some (.arr users') ∧
      (strStartsWith "$2a$10$z" "$" = false →
        ∃ hsh, (fun s => Except.ok ("$2a$10$" ++ s) : String → Except String String) "$2a$10$z" = .ok hsh ∧
          users'[0]? = some (.obj (setKey [("encryptedPassword", JValue.str "$2a$10$z")]
            "encryptedPassword" (.str hsh)))) ∧
      (strStartsWith "$2a$10$z" "$" = true →
        users'[0]? = some (.obj [("encryptedPassword", JValue.str "$2a$10$z")]))) :=
  ⟨processPasswords_encrypted_field_cases
      (fun s => Except.ok ("$2a$10$" ++ s))
      [("operatingSystem", .obj [("users", .arr
        [.obj [("encryptedPassword", .str "abc")]])])]
      [("users", .arr [.obj [("encryptedPassword", .str "abc")]])]
      [.obj [("encryptedPassword", .str "abc")]]
      0 [("encryptedPassword", .str "abc")] "abc"
      [("operatingSystem", .obj [("users", .arr
        [.obj [("encryptedPassword", .str "$2a$10$abc")]])])]
      rfl rfl rfl rfl rfl (by decide) rfl,
   processPasswords_encrypted_field_cases
      (fun s => Except.ok ("$2a$10$" ++ s))
      [("operatingSystem", .obj [("users", .arr
        [.obj [("encryptedPassword", .str "$2a$10$z")]])])]
      [("users", .arr [.obj [("encryptedPassword", .str "$2a$10$z")]])]
      [.obj [("encryptedPassword", .str "$2a$10$z")]]
      0 [("encryptedPassword", .str "$2a$10$z")] "$2a$10$z"
      [("operatingSystem", .obj [("users", .arr
        [.obj [("encryptedPassword", .str "$2a$10$z")]])])]
      rfl rfl rfl rfl rfl (by decide) rfl⟩

/-- C9: when a user record carries both a non-empty string `password` and an
`encryptedPassword` field (`old`, arbitrary — it is never inspected or
hashed), the plaintext takes precedence: the record's iteration succeeds
exactly when hashing the plaintext does, the hash of `password` overwrites
`encryptedPassword` in place, and the `password` key is deleted, leaving
exactly one credential field. -/
theorem processUser_password_precedence
    (f : String → Except String String) (m : Doc) (pwd : String) (old : JValue)
    (u' : JValue)
    (hpwd : getKey m "password" = some (.str pwd))
    (hne : pwd ≠ "")
    (_henc : getKey m "encryptedPassword" = some old)
    (hrun : processUser f (.obj m) = .ok u') :
    ∃ hsh, f pwd = .ok hsh ∧
      u' = .obj (delKey (setKey m "encryptedPassword" (.str hsh)) "password") ∧
      ∃ m', u' = .obj m' ∧
        getKey m' "password" = none ∧
        getKey m' "encryptedPassword" = some (.str hsh) := by
  cases hfp : f pwd with
  | error e => simp [processUser, hpwd, hne, hfp] at hrun
  | ok hsh =>
    simp [processUser, hpwd, hne, hfp] at hrun
    subst hrun
    refine ⟨hsh, rfl, rfl,
      delKey (setKey m "encryptedPassword" (.str hsh)) "password", rfl,
      getKey_delKey_self _ "password", ?_⟩
    rw [getKey_delKey_ne _ "password" "encryptedPassword" (by decide),
      getKey_setKey_self]

/-- C9 witness: a record carrying both `password: "pw"` and a stale
`encryptedPassword` ends up with only the hash of `pw`. -/
theorem processUser_password_precedence_witness :
    ∃ hsh, (fun s => Except.ok ("$2a$10$" ++ s) : String → Except String String) "pw" = .ok hsh ∧
      JValue.obj [("username", JValue.str "root"),
                  ("encryptedPassword", JValue.str "$2a$10$pw")] =
        .obj (delKey (setKey
          [("username", JValue.str "root"),
           ("password", JValue.str "pw"),
           ("encryptedPassword", JValue.str "stale")]
          "encryptedPassword" (.str hsh)) "password") ∧
      ∃ m', JValue.obj [("username", JValue.str "root"),
                        ("encryptedPassword", JValue.str "$2a$10$pw")] = .obj m' ∧
        getKey m' "password" = none ∧
        getKey m' "encryptedPassword" = some (.str hsh) :=
  processUser_password_precedence
    (fun s => Except.ok ("$2a$10$" ++ s))
    [("username", .str "root"), ("password", .str "pw"),
     ("encryptedPassword", .str "stale")]
    "pw" (.str "stale")
    (.obj [("username", .str "root"), ("encryptedPassword", .str "$2a$10$pw")])
    rfl (by decide) rfl rfl

/-- The three method names the dispatcher recognizes. -/
def recognizedMethod (m : String) : Bool :=
  m == "initialize" || m == "tools/list" || m == "tools/call"

theorem handleRequest_eq_default (C : Capabilities) (req : JSONRPCRequest)
    (h : recognizedMethod req.method = false) :
    handleRequest C req =
      if req.id.isSome then
        some ⟨"2.0", none, some ⟨-32601, "Method not found", none⟩, req.id⟩
      else none := by
  unfold handleRequest
  split
  · rename_i heq; rw [heq] at h; exact absurd h (by decide)
  · rename_i heq; rw [heq] at h; exact absurd h (by decide)
  · rename_i heq; rw [heq] at h; exact absurd h (by decide)
  · rfl

theorem handleRequest_eq_toolsCall (C : Capabilities) (req : JSONRPCRequest)
    (hm : req.method = "tools/call") :
    handleRequest C req = some (handleToolsCall C req) := by
  unfold handleRequest
  split
  · rename_i heq; rw [hm] at heq; exact absurd heq (by decide)
  · rename_i heq; rw [hm] at heq; exact absurd heq (by decide)
  · rfl
  · rename_i h1 h2 h3; exact absurd hm h3

/-- A trivial instantiation of the external capabilities, used only to
evaluate the server at concrete inputs. -/
def testCaps : Capabilities :=
  ⟨fun s => .ok ("$2a$10$" ++ s), .ok (), fun _ => .ok [], fun _ => .ok "", none⟩

/-- C3 counterexample: the notification `{"jsonrpc":"2.0","method":"initialize"}`
(no correlation identifier) nevertheless receives a response from the
dispatcher, refuting the claim that a request with no identifier never
produces a response regardless of method. -/
theorem handleRequest_notification_gets_response :
    (handleRequest testCaps ⟨"2.0", "initialize", none, none⟩).isSome = true := rfl

theorem handleRequest_none_characterization (C : Capabilities) (req : JSONRPCRequest) :
    handleRequest C req = none ↔
      (req.id = none ∧ recognizedMethod req.method = false) := by
  cases hrm : recognizedMethod req.method with
  | true =>
    unfold handleRequest
    split
    · simp [hrm]
    · simp [hrm]
    · simp [hrm]
    · rename_i h1 h2 h3
      exfalso
      simp [recognizedMethod] at hrm
      rcases hrm with (h | h) | h
      · exact h1 h
      · exact h2 h
      · exact h3 h
  | false =>
    rw [handleRequest_eq_default C req hrm]
    cases hid : req.id with
    | none => simp
    | some v => simp

/-- C5: for every request whose method is none of `initialize`, `tools/list`,
`tools/call`: with a present identifier the dispatcher returns a `-32601`
error response echoing that identifier; with a null/absent identifier it
returns no response at all. -/
theorem handleRequest_unknown_method (C : Capabilities) (req : JSONRPCRequest)
    (h : recognizedMethod req.method = false) :
    (req.id = none → handleRequest C req = none) ∧
    (∀ v, req.id = some v → handleRequest C req =
      some ⟨"2.0", none, some ⟨-32601, "Method not found", none⟩, some v⟩) := by
  rw [handleRequest_eq_default C req h]
  constructor
  · intro hid; simp [hid]
  · intro v hid; simp [hid]

/-- C5 witness: the unknown method `foo/bar` with id `1` gets `-32601`
echoing the id; the same method with no id gets nothing. -/
theorem handleRequest_unknown_method_witness :
    ((⟨"2.0", "foo/bar", none, none⟩ : JSONRPCRequest).id = none →
      handleRequest testCaps ⟨"2.0", "foo/bar", none, none⟩ = none) ∧
    (∀ v, (⟨"2.0", "foo/bar", none, none⟩ : JSONRPCRequest).id = some v →
      handleRequest testCaps ⟨"2.0", "foo/bar", none, none⟩ =
        some ⟨"2.0", none, some ⟨-32601, "Method not found", none⟩, some v⟩) :=
  handleRequest_unknown_method testCaps ⟨"2.0", "foo/bar", none, none⟩ (by decide)

/-- C10: a `tools/call` request whose `params` field is entirely absent (the
raw message is `nil`, which `json.Unmarshal` rejects) is answered with a
parse-error response, code `-32700`. -/
theorem handleRequest_toolsCall_absent_params (C : Capabilities)
    (req : JSONRPCRequest)
    (hm : req.method = "tools/call") (hp : req.params = none) :
    handleRequest C req =
      some ⟨"2.0", none, some ⟨-32700, "Parse error", none⟩, req.id⟩ := by
  rw [handleRequest_eq_toolsCall C req hm]
  unfold handleToolsCall
  rw [hp]
  rfl

/-- C10 witness: `{"jsonrpc":"2.0","id":7,"method":"tools/call"}` (no params)
is answered with code `-32700`. -/
theorem handleRequest_toolsCall_absent_params_witness :
    handleRequest testCaps ⟨"2.0", "tools/call", none, some (.num 7)⟩ =
      some ⟨"2.0", none, some ⟨-32700, "Parse error", none⟩, some (.num 7)⟩ :=
  handleRequest_toolsCall_absent_params testCaps
    ⟨"2.0", "tools/call", none, some (.num 7)⟩ rfl rfl

/-- C7: in the message loop, an empty input line and a line that fails to
parse as a request each produce no output line and no error, and processing
continues with the following lines exactly as if the line were not there;
the loop consumes the whole stream (it is structurally recursive over the
delivered lines) and `Serve` reports an error only for a read error of the
stream itself. -/
theorem serve_skips_blank_and_malformed (C : Capabilities)
    (marshal : JSONRPCResponse → Option String) (rest : List InputLine)
    (ending : StreamEnd) :
    serveLines C marshal (.empty :: rest) = serveLines C marshal rest ∧
    serveLines C marshal (.malformed :: rest) = serveLines C marshal rest ∧
    Serve C marshal (.empty :: rest) ending = Serve C marshal rest ending ∧
    Serve C marshal (.malformed :: rest) ending = Serve C marshal rest ending ∧
    (∀ msgs, (Serve C marshal msgs StreamEnd.eof).2 = none) :=
  ⟨rfl, rfl, rfl, rfl, fun _ => rfl⟩

theorem violationLines_foldl_acc (vs : List String) (acc : String) :
    vs.foldl (fun a d => a ++ ("- " ++ d ++ "\n")) acc =
      acc ++ vs.foldl (fun a d => a ++ ("- " ++ d ++ "\n")) "" := by
  induction vs generalizing acc with
  | nil => simp [List.foldl]
  | cons d rest ih =>
    simp only [List.foldl]
    rw [ih (acc ++ ("- " ++ d ++ "\n")), ih ("" ++ ("- " ++ d ++ "\n")),
      String.empty_append, String.append_assoc]

theorem violationLines_mem (vs : List String) (v : String) (hv : v ∈ vs) :
    ∃ pre post, violationLines vs = pre ++ ("- " ++ v ++ "\n") ++ post := by
  induction vs with
  | nil => cases hv
  | cons d rest ih =>
    rcases List.mem_cons.mp hv with he | he
    · subst he
      refine ⟨"", rest.foldl (fun a d => a ++ ("- " ++ d ++ "\n")) "", ?_⟩
      unfold violationLines
      simp only [List.foldl]
      rw [violationLines_foldl_acc rest ("" ++ ("- " ++ v ++ "\n"))]
    · obtain ⟨pre, post, hp⟩ := ih he
      refine ⟨("- " ++ d ++ "\n") ++ pre, post, ?_⟩
      unfold violationLines at hp ⊢
      simp only [List.foldl]
      rw [violationLines_foldl_acc rest ("" ++ ("- " ++ d ++ "\n")), hp,
        String.empty_append]
      simp [String.append_assoc]

/-- C4: when the (already password-processed) document fails schema
validation inside `GenerateConfig`, the pipeline fails with a message that
enumerates every violation the engine reported — one per line, each line
prefixed with `- ` — and `handleToolsCall` surfaces exactly that message as a
JSON-RPC error with code `-32000`. -/
theorem generateConfig_reports_all_violations
    (C : Capabilities) (req : JSONRPCRequest) (input input' : Doc)
    (violations : List String)
    (hm : req.method = "tools/call")
    (hparse : parseCallParams req.params = some ⟨"generate_config", input⟩)
    (hpw : processPasswords C.encryptPassword input = .ok input')
    (hload : C.loadSchema = .ok ())
    (hval : C.validate input' = .ok violations)
    (hnv : violations ≠ []) :
    GenerateConfig C input =
      .error ("configuration is invalid:\n" ++ violationLines violations) ∧
    (∀ v ∈ violations, ∃ pre post,
      "configuration is invalid:\n" ++ violationLines violations =
        pre ++ ("- " ++ v ++ "\n") ++ post) ∧
    handleRequest C req = some ⟨"2.0", none,
      some ⟨-32000, "configuration is invalid:\n" ++ violationLines violations,
        none⟩,
      req.id⟩ := by
  have hie : violations.isEmpty = false := by
    cases violations with
    | nil => exact absurd rfl hnv
    | cons a l => rfl
  have hgen : GenerateConfig C input =
      .error ("configuration is invalid:\n" ++ violationLines violations) := by
    unfold GenerateConfig
    simp only [hpw, hload, hval]
    simp [hie]
  refine ⟨hgen, ?_, ?_⟩
  · intro v hv
    obtain ⟨pre, post, hp⟩ := violationLines_mem violations v hv
    refine ⟨"configuration is invalid:\n" ++ pre, post, ?_⟩
    rw [hp]
    simp [String.append_assoc]
  · rw [handleRequest_eq_toolsCall C req hm]
    unfold handleToolsCall
    rw [hparse]
    simp [hgen]

/-- Capabilities whose validation engine reports two violations, used to
instantiate the C4 theorem at a concrete input. -/
def twoViolationCaps : Capabilities :=
  ⟨fun s => .ok s, .ok (), fun _ => .ok ["violation A", "violation B"],
   fun _ => .ok "", none⟩

/-- C4 witness: with two engine violations, the pipeline error lists both,
each as a `- `-prefixed line, and the call is answered with code `-32000`. -/
theorem generateConfig_reports_all_violations_witness :
    GenerateConfig twoViolationCaps [] =
      .error ("configuration is invalid:\n" ++
        violationLines ["violation A", "violation B"]) ∧
    (∀ v ∈ (["violation A", "violation B"] : List String), ∃ pre post,
      "configuration is invalid:\n" ++ violationLines ["violation A", "violation B"] =
        pre ++ ("- " ++ v ++ "\n") ++ post) ∧
    handleRequest twoViolationCaps
      ⟨"2.0", "tools/call",
        some (.obj [("name", .str "generate_config"), ("arguments", .obj [])]),
        some (.num 1)⟩ =
      some ⟨"2.0", none,
        some ⟨-32000, "configuration is invalid:\n" ++
          violationLines ["violation A", "violation B"], none⟩,
        some (.num 1)⟩ :=
  generateConfig_reports_all_violations twoViolationCaps
    ⟨"2.0", "tools/call",
      some (.obj [("name", .str "generate_config"), ("arguments", .obj [])]),
      some (.num 1)⟩
    [] [] ["violation A", "violation B"]
    rfl rfl rfl rfl rfl (by decide)

theorem handleToolsCall_id_and_shape (C : Capabilities) (req : JSONRPCRequest) :
    (handleToolsCall C req).id = req.id ∧
    (handleToolsCall C req).result.isSome = !(handleToolsCall C req).error.isSome := by
  unfold handleToolsCall
  split
  · exact ⟨rfl, rfl⟩
  · split
    · exact ⟨rfl, rfl⟩
    · split
      · exact ⟨rfl, rfl⟩
      · exact ⟨rfl, rfl⟩

theorem handleRequest_some_shape (C : Capabilities) (req : JSONRPCRequest)
    (resp : JSONRPCResponse) (h : handleRequest C req = some resp) :
    resp.id = req.id ∧ resp.result.isSome = !resp.error.isSome := by
  unfold handleRequest at h
  split at h
  · injection h with h; subst h; exact ⟨rfl, rfl⟩
  · injection h with h; subst h; exact ⟨rfl, rfl⟩
  · injection h with h; subst h; exact handleToolsCall_id_and_shape C req
  · split at h
    · injection h with h; subst h; exact ⟨rfl, rfl⟩
    · cases h

/-- C3 amended: the dispatcher produces no response exactly when the request
carries no identifier AND its method is not one of `initialize`,
`tools/list`, `tools/call`; every request carrying an identifier receives
exactly one response — with exactly one of result and error set, echoing the
request's identifier — but a notification with a recognized method also
receives a response (echoing the null identifier), contrary to the original
claim. -/
theorem handleRequest_response_discipline (C : Capabilities) (req : JSONRPCRequest) :
    (handleRequest C req = none ↔
      (req.id = none ∧ recognizedMethod req.method = false)) ∧
    ∀ resp, handleRequest C req = some resp →
      resp.id = req.id ∧ resp.result.isSome = !resp.error.isSome :=
  ⟨handleRequest_none_characterization C req,
   fun resp h => handleRequest_some_shape C req resp h⟩

/-- C3 amended witness: the theorem evaluated at the concrete request
`{"jsonrpc":"2.0","id":1,"method":"initialize"}`. -/
theorem handleRequest_response_discipline_witness :
    (handleRequest testCaps ⟨"2.0", "initialize", none, some (.num 1)⟩ = none ↔
      ((⟨"2.0", "initialize", none, some (.num 1)⟩ : JSONRPCRequest).id = none ∧
       recognizedMethod
         (⟨"2.0", "initialize", none, some (.num 1)⟩ : JSONRPCRequest).method =
           false)) ∧
    ∀ resp,
      handleRequest testCaps ⟨"2.0", "initialize", none, some (.num 1)⟩ =
        some resp →
      resp.id = (⟨"2.0", "initialize", none, some (.num 1)⟩ : JSONRPCRequest).id ∧
      resp.result.isSome = !resp.error.isSome :=
  handleRequest_response_discipline testCaps
    ⟨"2.0", "initialize", none, some (.num 1)⟩
